import Mathlib

/-!
Verification development for the sliding-window-demo repository.

The repository computes sequences of overlapping windows over an ordered list
of positioned items.  This file gives a shallow embedding of its algorithmic
core in Lean 4 and proves (or refutes) the specified properties about it.

Conventions of the embedding:
* JavaScript numbers are modelled by `ℚ` (exact rationals) where the source
  performs real arithmetic, by `ℕ`/`ℤ` where the source manipulates integer
  counts and indices.  `Math.floor` on a non-negative integer quotient is
  natural-number division; on a rational it is `Int.floor`.
* JavaScript objects keyed by integers (the position tables) are modelled as
  ascending association lists, matching the ascending enumeration order that
  JavaScript guarantees for integer-like keys.
* A JavaScript `TypeError` (e.g. `reduce` on an empty array) is modelled by
  an explicit error value (`Option`/`GWResult.crash`).
-/

set_option maxHeartbeats 1000000

/-! ## Brute-force window-size search (`optimizeWindowSize`, src/index.js lines 1-23)

The JS loop scans `windowSize` from 1 to `totalImages`, keeping the first
size that strictly improves the feasible coverage percentage. -/

/-- `Math.floor((windowSize * overlapPercent) / 100)` for natural inputs. -/
def owsOverlapSize (windowSize overlapPercent : ℕ) : ℕ :=
  windowSize * overlapPercent / 100

/-- `stepSize = windowSize - overlapSize` (may be non-positive in JS). -/
def owsStepSize (windowSize overlapPercent : ℕ) : ℤ :=
  (windowSize : ℤ) - owsOverlapSize windowSize overlapPercent

/-- `lastWindowEnd = (numWindows - 1) * stepSize + windowSize - 1`. -/
def owsLastEnd (numWindows windowSize overlapPercent : ℕ) : ℤ :=
  ((numWindows : ℤ) - 1) * owsStepSize windowSize overlapPercent + windowSize - 1

/-- `coverage = Math.min(lastWindowEnd + 1, totalImages)`. -/
def owsCoverage (totalImages numWindows windowSize overlapPercent : ℕ) : ℤ :=
  min (owsLastEnd numWindows windowSize overlapPercent + 1) (totalImages : ℤ)

/-- Loop state of `optimizeWindowSize`: `bestWindowSize` (initially 1) and
`bestCoverage` (a fraction, initially 0). -/
structure OWState where
  bestWindowSize : ℕ
  bestCoverage : ℚ
deriving DecidableEq

/-- One iteration of the `optimizeWindowSize` loop body. -/
def owsStep (totalImages numWindows overlapPercent : ℕ) (st : OWState)
    (windowSize : ℕ) : OWState :=
  if owsStepSize windowSize overlapPercent ≤ 0 then st
  else if st.bestCoverage <
      (owsCoverage totalImages numWindows windowSize overlapPercent : ℚ) / (totalImages : ℚ) ∧
      owsLastEnd numWindows windowSize overlapPercent < (totalImages : ℤ) then
    ⟨windowSize, (owsCoverage totalImages numWindows windowSize overlapPercent : ℚ) / (totalImages : ℚ)⟩
  else st

/-- `optimizeWindowSize(totalImages, numWindows, overlapPercent)`:
fold of the loop body over window sizes `1, 2, ..., totalImages`. -/
def optimizeWindowSize (totalImages numWindows overlapPercent : ℕ) : ℕ :=
  ((List.range' 1 totalImages).foldl
    (owsStep totalImages numWindows overlapPercent) ⟨1, 0⟩).bestWindowSize

/-- A candidate window size is feasible when it is in range, its step is
positive and its last window stays inside the sequence. -/
def owsFeasible (totalImages numWindows windowSize overlapPercent : ℕ) : Prop :=
  1 ≤ windowSize ∧ windowSize ≤ totalImages ∧
    0 < owsStepSize windowSize overlapPercent ∧
    owsLastEnd numWindows windowSize overlapPercent < (totalImages : ℤ)

instance (T n w p : ℕ) : Decidable (owsFeasible T n w p) := by
  unfold owsFeasible; infer_instance

lemma owsCoverage_pos (T n w p : ℕ) (hn : 1 ≤ n) (hT : 1 ≤ T) (hw : 1 ≤ w)
    (hs : 0 < owsStepSize w p) : 1 ≤ owsCoverage T n w p := by
  have h1 : (0 : ℤ) ≤ ((n : ℤ) - 1) * owsStepSize w p := by
    apply mul_nonneg _ hs.le
    have : (1 : ℤ) ≤ (n : ℤ) := by exact_mod_cast hn
    omega
  unfold owsCoverage owsLastEnd
  refine le_min ?_ (by exact_mod_cast hT)
  have hwZ : (1 : ℤ) ≤ (w : ℤ) := by exact_mod_cast hw
  omega

/-- Strong loop invariant after processing candidate sizes `1..k`:
either nothing feasible was seen and the state is the initial one, or the
state holds the first feasible size attaining the maximal coverage so far. -/
def OWInv (T n p k : ℕ) (st : OWState) : Prop :=
  (st = ⟨1, 0⟩ ∧ ∀ w, 1 ≤ w → w ≤ k → ¬ owsFeasible T n w p) ∨
  (owsFeasible T n st.bestWindowSize p ∧ st.bestWindowSize ≤ k ∧
    st.bestCoverage = (owsCoverage T n st.bestWindowSize p : ℚ) / (T : ℚ) ∧
    (∀ w, owsFeasible T n w p → w ≤ k →
      owsCoverage T n w p ≤ owsCoverage T n st.bestWindowSize p) ∧
    (∀ w, owsFeasible T n w p → w ≤ k →
      owsCoverage T n w p = owsCoverage T n st.bestWindowSize p →
      st.bestWindowSize ≤ w))

lemma owsStep_inv (T n p k : ℕ) (hT : 1 ≤ T) (hn : 1 ≤ n) (hk : k + 1 ≤ T)
    (st : OWState) (h : OWInv T n p k st) :
    OWInv T n p (k + 1) (owsStep T n p st (k + 1)) := by
  have hTQ : (0 : ℚ) < (T : ℚ) := by exact_mod_cast hT
  unfold owsStep
  by_cases hs : owsStepSize (k + 1) p ≤ 0
  · rw [if_pos hs]
    have hnf : ¬ owsFeasible T n (k + 1) p := fun hf => absurd hf.2.2.1 (not_lt.mpr hs)
    rcases h with ⟨hst, hall⟩ | ⟨hf, hle, hcov, hmax, htie⟩
    · refine Or.inl ⟨hst, fun w h1 h2 => ?_⟩
      rcases Nat.le_succ_iff.mp h2 with h2' | h2'
      · exact hall w h1 h2'
      · exact h2' ▸ hnf
    · refine Or.inr ⟨hf, hle.trans (Nat.le_succ k), hcov, fun w hw h2 => ?_, fun w hw h2 => ?_⟩
      · rcases Nat.le_succ_iff.mp h2 with h2' | h2'
        · exact hmax w hw h2'
        · exact absurd hw (h2' ▸ hnf)
      · rcases Nat.le_succ_iff.mp h2 with h2' | h2'
        · exact htie w hw h2'
        · exact fun _ => absurd hw (h2' ▸ hnf)
  · rw [if_neg hs]
    have hspos : 0 < owsStepSize (k + 1) p := lt_of_not_le hs
    by_cases hc : st.bestCoverage < (owsCoverage T n (k + 1) p : ℚ) / (T : ℚ) ∧
        owsLastEnd n (k + 1) p < (T : ℤ)
    · rw [if_pos hc]
      have hfeas : owsFeasible T n (k + 1) p :=
        ⟨Nat.le_add_left 1 k, hk, hspos, hc.2⟩
      -- the strictly improved coverage dominates every previously seen candidate
      have hprev : ∀ w, owsFeasible T n w p → w ≤ k →
          owsCoverage T n w p < owsCoverage T n (k + 1) p := by
        intro w hw h2'
        rcases h with ⟨hst, hall⟩ | ⟨hf, hle, hcov, hmax, htie⟩
        · exact absurd hw (hall w hw.1 h2')
        · have hlt : (owsCoverage T n st.bestWindowSize p : ℚ) / (T : ℚ) <
              (owsCoverage T n (k + 1) p : ℚ) / (T : ℚ) := hcov ▸ hc.1
          have hlt' : owsCoverage T n st.bestWindowSize p < owsCoverage T n (k + 1) p := by
            exact_mod_cast (div_lt_div_iff_of_pos_right hTQ).mp hlt
          exact lt_of_le_of_lt (hmax w hw h2') hlt'
      refine Or.inr ⟨hfeas, le_rfl, rfl, ?_, ?_⟩
      · intro w hw h2
        dsimp only
        rcases Nat.le_succ_iff.mp h2 with h2' | h2'
        · exact (hprev w hw h2').le
        · exact h2' ▸ le_rfl
      · intro w hw h2 hcv
        dsimp only at hcv ⊢
        rcases Nat.le_succ_iff.mp h2 with h2' | h2'
        · exact absurd hcv (ne_of_lt (hprev w hw h2'))
        · exact h2' ▸ le_rfl
    · rw [if_neg hc]
      rcases h with ⟨hst, hall⟩ | ⟨hf, hle, hcov, hmax, htie⟩
      · -- initial state: the new candidate cannot be feasible, otherwise the
        -- condition would have fired (coverage of a feasible size is positive).
        refine Or.inl ⟨hst, fun w h1 h2 => ?_⟩
        rcases Nat.le_succ_iff.mp h2 with h2' | h2'
        · exact hall w h1 h2'
        · subst h2'
          intro hfeas
          apply hc
          refine ⟨?_, hfeas.2.2.2⟩
          rw [hst]
          have h1c : 1 ≤ owsCoverage T n (k + 1) p :=
            owsCoverage_pos T n (k + 1) p hn hT (Nat.le_add_left 1 k) hspos
          have hpos : (0 : ℚ) < (owsCoverage T n (k + 1) p : ℚ) / (T : ℚ) := by
            apply div_pos _ hTQ
            exact_mod_cast h1c
          simpa using hpos
      · refine Or.inr ⟨hf, hle.trans (Nat.le_succ k), hcov, fun w hw h2 => ?_, fun w hw h2 hcv => ?_⟩
        · rcases Nat.le_succ_iff.mp h2 with h2' | h2'
          · exact hmax w hw h2'
          · subst h2'
            -- condition failed while the second conjunct holds, so the first fails
            have hnotlt : ¬ st.bestCoverage <
                (owsCoverage T n (k + 1) p : ℚ) / (T : ℚ) := by
              intro hlt; exact hc ⟨hlt, hw.2.2.2⟩
            have hle' : (owsCoverage T n (k + 1) p : ℚ) / (T : ℚ) ≤
                (owsCoverage T n st.bestWindowSize p : ℚ) / (T : ℚ) := hcov ▸ not_lt.mp hnotlt
            exact_mod_cast (div_le_div_iff_of_pos_right hTQ).mp hle'
        · rcases Nat.le_succ_iff.mp h2 with h2' | h2'
          · exact htie w hw h2' hcv
          · subst h2'
            exact hle.trans (Nat.le_succ k)

lemma owsFold_inv (T n p : ℕ) (hT : 1 ≤ T) (hn : 1 ≤ n) :
    ∀ k, k ≤ T → OWInv T n p k ((List.range' 1 k).foldl (owsStep T n p) ⟨1, 0⟩) := by
  intro k
  induction k with
  | zero =>
    intro _
    exact Or.inl ⟨rfl, fun w h1 h2 => absurd (h1.trans h2) (by norm_num)⟩
  | succ m ih =>
    intro hm
    rw [List.range'_concat, List.foldl_append, List.foldl_cons, List.foldl_nil]
    have h1m : 1 + 1 * m = m + 1 := by omega
    rw [h1m]
    exact owsStep_inv T n p m hT hn hm _ (ih (by omega))

/-- Weak loop invariant (no assumption on the window count): the best size is
either still the default 1 or a feasible candidate. -/
def OWInvW (T n p : ℕ) (st : OWState) : Prop :=
  st.bestWindowSize = 1 ∨ owsFeasible T n st.bestWindowSize p

lemma owsStepW_inv (T n p k : ℕ) (hk : k + 1 ≤ T) (st : OWState)
    (h : OWInvW T n p st) : OWInvW T n p (owsStep T n p st (k + 1)) := by
  unfold owsStep
  by_cases hs : owsStepSize (k + 1) p ≤ 0
  · rw [if_pos hs]; exact h
  · rw [if_neg hs]
    by_cases hc : st.bestCoverage <
        (owsCoverage T n (k + 1) p : ℚ) / (T : ℚ) ∧ owsLastEnd n (k + 1) p < (T : ℤ)
    · rw [if_pos hc]
      exact Or.inr ⟨Nat.le_add_left 1 k, hk, lt_of_not_le hs, hc.2⟩
    · rw [if_neg hc]; exact h

lemma owsFoldW_inv (T n p : ℕ) :
    ∀ k, k ≤ T → OWInvW T n p ((List.range' 1 k).foldl (owsStep T n p) ⟨1, 0⟩) := by
  intro k
  induction k with
  | zero => intro _; exact Or.inl rfl
  | succ m ih =>
    intro hm
    rw [List.range'_concat, List.foldl_append, List.foldl_cons, List.foldl_nil]
    have h1m : 1 + 1 * m = m + 1 := by omega
    rw [h1m]
    exact owsStepW_inv T n p m hm _ (ih (by omega))

lemma optimizeWindowSize_spec (T n p : ℕ) (hT : 1 ≤ T) (hn : 1 ≤ n)
    (hex : ∃ w, owsFeasible T n w p) :
    owsFeasible T n (optimizeWindowSize T n p) p ∧
    (∀ w, owsFeasible T n w p →
      owsCoverage T n w p ≤ owsCoverage T n (optimizeWindowSize T n p) p) ∧
    (∀ w, owsFeasible T n w p →
      owsCoverage T n w p = owsCoverage T n (optimizeWindowSize T n p) p →
      optimizeWindowSize T n p ≤ w) := by
  obtain ⟨w0, hw0⟩ := hex
  have hinv := owsFold_inv T n p hT hn T le_rfl
  unfold optimizeWindowSize
  rcases hinv with ⟨_, hall⟩ | ⟨hf, _, _, hmax, htie⟩
  · exact absurd hw0 (hall w0 hw0.1 hw0.2.1)
  · exact ⟨hf, fun w hw => hmax w hw hw.2.1, fun w hw he => htie w hw hw.2.1 he⟩

lemma optimizeWindowSize_default_spec (T n p : ℕ) (hT : 1 ≤ T) :
    1 ≤ optimizeWindowSize T n p ∧ optimizeWindowSize T n p ≤ T ∧
      ((∀ w, ¬ owsFeasible T n w p) → optimizeWindowSize T n p = 1) := by
  have hinv := owsFoldW_inv T n p T le_rfl
  unfold optimizeWindowSize
  rcases hinv with h1 | hf
  · exact ⟨h1.ge, by rw [h1]; exact hT, fun _ => h1⟩
  · exact ⟨hf.1, hf.2.1, fun hno => absurd hf (hno _)⟩

/-! ## Position table and geometric helpers (src/unnamed/part_001 lines 1-11, 183-200) -/

/-- One entry of the position table: physical center offset and thickness. -/
structure SlicePos where
  rel_center_mm : ℚ
  thickness_mm : ℚ
deriving DecidableEq, Inhabited

/-- `getSlicePositions(totalImages, totalLength, sliceThickness)`.
The JS builds an object with keys `totalImages` down to `1`; integer-like
object keys enumerate in ascending numeric order, so the table is the
ascending association list.  Entry `i` has center `(totalImages - i) *
totalLength / (totalImages - 1)`.  (For `totalImages = 1` the JS divides by
zero, producing Infinity/NaN centers; in `ℚ` the division yields 0.  No
theorem below inspects the numeric values of such a degenerate table.) -/
def getSlicePositions (totalImages : ℕ) (totalLength sliceThickness : ℚ) :
    List (ℕ × SlicePos) :=
  (List.range' 1 totalImages).map fun i =>
    (i, ⟨((totalImages : ℚ) - (i : ℚ)) * (totalLength / ((totalImages : ℚ) - 1)),
         sliceThickness⟩)

/-- `distance_mm(start, end)` (the `end = null` default branch is never used
by the flows modelled here). -/
def distance_mm (a b : SlicePos) : ℚ := |b.rel_center_mm - a.rel_center_mm|

/-- `thickness_mm(start, end)`. -/
def thickness_mm (a b : SlicePos) : ℚ := (a.thickness_mm + b.thickness_mm) / 2

/-- `coverage_mm(start, end) = distance + mean thickness`. -/
def coverage_mm (a b : SlicePos) : ℚ := distance_mm a b + thickness_mm a b

/-- `get_future_positions(positions, start_index)`: entries with key strictly
greater than `start_index` (written as a structural recursion equivalent to
the JS filter, keeping enumeration order). -/
def get_future_positions (positions : List (ℕ × SlicePos)) (start_index : ℕ) :
    List (ℕ × SlicePos) :=
  match positions with
  | [] => []
  | q :: rest =>
    if start_index < q.1 then q :: get_future_positions rest start_index
    else get_future_positions rest start_index

/-- JS `array.reduce((min, curr) => curr[1] < min[1] ? curr : min)` over the
entries of an object: first minimum wins; `none` models the `TypeError`
thrown by `reduce` on an empty array. -/
def argminFirst (l : List (ℕ × ℚ)) : Option (ℕ × ℚ) :=
  l.foldl (fun acc curr =>
    match acc with
    | none => some curr
    | some m => if curr.2 < m.2 then some curr else some m) none

/-- JS `positions[k]` property access (the tables used here have unique keys;
for a missing key JS would yield `undefined`, modelled by the default). -/
def lookupPos (positions : List (ℕ × SlicePos)) (k : ℕ) : SlicePos :=
  match positions with
  | [] => default
  | q :: rest => if q.1 = k then q.2 else lookupPos rest k

/-- JS `object[key]` access on the coverage/distance maps (0 for a missing
key; never hit on the keys produced by the search). -/
def lookupVal (l : List (ℕ × ℚ)) (k : ℕ) : ℚ :=
  match l with
  | [] => 0
  | q :: rest => if q.1 = k then q.2 else lookupVal rest k

/-- The `coverages_mm` map built inside `get_asdf`. -/
def asdfCoverages (positions : List (ℕ × SlicePos)) (start_index : ℕ) :
    List (ℕ × ℚ) :=
  (get_future_positions positions start_index).map fun q =>
    (q.1, coverage_mm (lookupPos positions start_index) q.2)

/-- The `distances_mm` map built inside `get_asdf1`. -/
def asdfDistances (positions : List (ℕ × SlicePos)) (start_index : ℕ) :
    List (ℕ × ℚ) :=
  (get_future_positions positions start_index).map fun q =>
    (q.1, distance_mm (lookupPos positions start_index) q.2)

/-- The `errors` map: percent relative error against the target. -/
def relErrors (target_mm : ℚ) (l : List (ℕ × ℚ)) : List (ℕ × ℚ) :=
  l.map fun q => (q.1, |q.2 - target_mm| / target_mm * 100)

/-- `get_asdf(positions, start_index, target_mm)`: over all future entries,
compute the coverage from `positions[start_index]`, the percent relative
error against `target_mm`, and return the key of minimum error together with
that error and its coverage.  `none` models the `TypeError` JS throws when
there are no future entries. -/
def get_asdf (positions : List (ℕ × SlicePos)) (start_index : ℕ)
    (target_mm : ℚ) : Option (ℕ × ℚ × ℚ) :=
  match argminFirst (relErrors target_mm (asdfCoverages positions start_index)) with
  | none => none
  | some q =>
    some (q.1, q.2, lookupVal (asdfCoverages positions start_index) q.1)

/-- `get_asdf1(positions, start_index, target_mm)`: same as `get_asdf` but
matching distances between centers instead of coverages. -/
def get_asdf1 (positions : List (ℕ × SlicePos)) (start_index : ℕ)
    (target_mm : ℚ) : Option (ℕ × ℚ × ℚ) :=
  match argminFirst (relErrors target_mm (asdfDistances positions start_index)) with
  | none => none
  | some q =>
    some (q.1, q.2, lookupVal (asdfDistances positions start_index) q.1)

/-! ## Greedy window-sequence generator (`get_windows`, part_001 lines 318-398) -/

/-- The `window` record pushed by `get_windows`. -/
structure WindowRec where
  start_img : ℕ
  start_idx : ℕ
  start_mm : ℚ
  end_img : ℕ
  end_idx : ℕ
  end_mm : ℚ
  error : ℚ
  coverage_mm : ℚ
  coverage_imgs : ℤ
  center_idx : ℕ
  center_mm : ℚ
deriving DecidableEq, Inhabited

/-- The `step` record pushed by `get_windows`.  The source reads
`slicePositions[...].rel_start_mm`, a field that does not exist, so `mm` is
JS `undefined`, modelled as `none`. -/
structure StepRec where
  img : ℕ
  idx : ℕ
  mm : Option ℚ
  error : ℚ
  distance_mm : ℚ
  distance_imgs : ℤ
deriving DecidableEq, Inhabited

/-- One element of the list returned by `get_windows`. -/
structure WinStep where
  window : WindowRec
  step : StepRec
deriving DecidableEq, Inhabited

/-- Builds the record pushed for a window starting at `s`, ending at `e` with
span error `e1` and coverage `c`, whose successor starts at `next` with step
error `e2` and recorded step distance `d`. -/
def mkWinStep (positions : List (ℕ × SlicePos)) (s e : ℕ) (e1 c : ℚ)
    (next : ℕ) (e2 d : ℚ) : WinStep :=
  { window :=
    { start_img := s, start_idx := s - 1
      start_mm := (lookupPos positions s).rel_center_mm
      end_img := e, end_idx := e - 1
      end_mm := (lookupPos positions e).rel_center_mm
      error := e1, coverage_mm := c, coverage_imgs := (e : ℤ) - (s : ℤ) + 1
      center_idx := (s + e) / 2
      center_mm := (lookupPos positions ((s + e) / 2)).rel_center_mm }
    step :=
    { img := next, idx := next - 1, mm := none, error := e2, distance_mm := d
      distance_imgs := (next : ℤ) - (s : ℤ) + 1 } }

/-- Result of the generator: a window list, a JS `TypeError` crash, or fuel
exhaustion (used to prove the loop terminates within the fuel bound). -/
inductive GWResult where
  | ok (windows : List WinStep)
  | crash
  | outOfFuel
deriving DecidableEq

/-- The `while (true)` loop of `get_windows`.  Note that the loop destructures
only two components of `get_asdf1`, so the recorded step distance stays the
initial `d` throughout (exactly as in the source). -/
def gwLoop (positions : List (ℕ × SlicePos)) (x0 x1 d : ℚ) :
    ℕ → ℕ → List WinStep → GWResult
  | 0, _, _ => GWResult.outOfFuel
  | fuel + 1, next, acc =>
    match get_asdf positions next x0 with
    | none => GWResult.crash
    | some (e, e1, c) =>
      if 1 < e1 then GWResult.ok acc
      else
        match get_asdf1 positions next x1 with
        | none => GWResult.crash
        | some (next2, e2, _) =>
          gwLoop positions x0 x1 d fuel next2
            (acc ++ [mkWinStep positions next e e1 c next2 e2 d])

/-- `Math.min(...Object.keys(slicePositions))`, computed by the enclosing
`calculateWindows`; `none` for an empty table (JS would give `Infinity`,
which likewise makes the first `get_asdf` crash). -/
def smallestKeyOf (positions : List (ℕ × SlicePos)) : Option ℕ :=
  match positions.map Prod.fst with
  | [] => none
  | k :: ks => some (ks.foldl min k)

/-- `get_windows(x)`: the first window is emitted unconditionally (no
tolerance check), then the loop runs with the stale step distance `d`. -/
def get_windows (positions : List (ℕ × SlicePos)) (x0 x1 : ℚ) (fuel : ℕ) :
    GWResult :=
  match smallestKeyOf positions with
  | none => GWResult.crash
  | some s =>
    match get_asdf positions s x0 with
    | none => GWResult.crash
    | some (e, e1, c) =>
      match get_asdf1 positions s x1 with
      | none => GWResult.crash
      | some (next, e2, d) =>
        gwLoop positions x0 x1 d fuel next [mkWinStep positions s e e1 c next e2 d]

/-! ## Aggregate statistics and cost (part_001 lines 400-453) -/

/-- A record with the three criteria keys of part_001 (`total_coverage`,
`window_coverage`, `step_size`); used for stats, targets, weights, errors. -/
structure Crit3 where
  total_coverage : ℚ
  window_coverage : ℚ
  step_size : ℚ
deriving DecidableEq

/-- `get_stats(windows)`: total coverage from first start to last end, mean
recorded window coverage, and mean recorded step distance — both means divide
by the number of windows (JS crashes on an empty list; the default head/last
is never used by the theorems below). -/
def get_stats (positions : List (ℕ × SlicePos)) (windows : List WinStep) :
    Crit3 :=
  { total_coverage :=
      coverage_mm (lookupPos positions ((windows.head?.getD default).window.start_img))
        (lookupPos positions ((windows.getLast?.getD default).window.end_img))
    window_coverage :=
      ((windows.map fun w => w.window.coverage_mm).sum) / (windows.length : ℚ)
    step_size :=
      ((windows.map fun w => w.step.distance_mm).sum) / (windows.length : ℚ) }

/-- `get_error(stats, key) = |stats[key] - targets[key]| / targets[key] * 100`,
parametrised by the key projection. -/
def get_error (stats targets : Crit3) (f : Crit3 → ℚ) : ℚ :=
  |f stats - f targets| / f targets * 100

/-- `get_errors(stats)`. -/
def get_errors (stats targets : Crit3) : Crit3 :=
  ⟨get_error stats targets Crit3.total_coverage,
   get_error stats targets Crit3.window_coverage,
   get_error stats targets Crit3.step_size⟩

/-- `get_cost(errors, key) = weights[key] * errors[key]`. -/
def get_cost (weights errors : Crit3) (f : Crit3 → ℚ) : ℚ :=
  f weights * f errors

/-- `get_cost_sum(errors)`: reduce over the three keys. -/
def get_cost_sum (weights errors : Crit3) : ℚ :=
  get_cost weights errors Crit3.total_coverage +
    get_cost weights errors Crit3.window_coverage +
    get_cost weights errors Crit3.step_size

/-- Weight normalization of part_001 `calculateWindows` (lines 298-315):
divide by the total, or substitute the uniform distribution when the total
is zero. -/
def normalizeWeights (raw : Crit3) : Crit3 :=
  if raw.window_coverage + raw.step_size + raw.total_coverage = 0 then
    ⟨1 / 3, 1 / 3, 1 / 3⟩
  else
    ⟨raw.total_coverage / (raw.window_coverage + raw.step_size + raw.total_coverage),
     raw.window_coverage / (raw.window_coverage + raw.step_size + raw.total_coverage),
     raw.step_size / (raw.window_coverage + raw.step_size + raw.total_coverage)⟩

/-! ## Lemmas about the greedy matcher -/

lemma argminFirst_aux_mem (f : Option (ℕ × ℚ) → ℕ × ℚ → Option (ℕ × ℚ))
    (hf : f = fun acc curr =>
      match acc with
      | none => some curr
      | some m => if curr.2 < m.2 then some curr else some m) :
    ∀ (l : List (ℕ × ℚ)) (acc : Option (ℕ × ℚ)) (q : ℕ × ℚ),
      l.foldl f acc = some q → acc = some q ∨ q ∈ l := by
  intro l
  induction l with
  | nil => intro acc q h; exact Or.inl h
  | cons a l ih =>
    intro acc q h
    rw [List.foldl_cons] at h
    rcases ih (f acc a) q h with h' | h'
    · subst hf
      match acc with
      | none =>
        simp only [Option.some_inj] at h'
        exact Or.inr (by rw [← h']; exact List.mem_cons_self a l)
      | some m =>
        simp only at h'
        by_cases hlt : a.2 < m.2
        · rw [if_pos hlt] at h'
          have ha : a = q := Option.some_inj.mp h'
          exact Or.inr (by rw [← ha]; exact List.mem_cons_self a l)
        · rw [if_neg hlt] at h'
          exact Or.inl h'
    · exact Or.inr (List.mem_cons_of_mem a h')

lemma argminFirst_mem {l : List (ℕ × ℚ)} {q : ℕ × ℚ}
    (h : argminFirst l = some q) : q ∈ l := by
  rcases argminFirst_aux_mem _ rfl l none q h with h' | h'
  · exact absurd h' (by simp)
  · exact h'

lemma argminFirst_aux_isSome (f : Option (ℕ × ℚ) → ℕ × ℚ → Option (ℕ × ℚ))
    (hf : f = fun acc curr =>
      match acc with
      | none => some curr
      | some m => if curr.2 < m.2 then some curr else some m) :
    ∀ (l : List (ℕ × ℚ)) (m : ℕ × ℚ), (l.foldl f (some m)).isSome := by
  intro l
  induction l with
  | nil => intro m; rfl
  | cons a l ih =>
    intro m
    rw [List.foldl_cons]
    subst hf
    simp only
    by_cases hlt : a.2 < m.2
    · rw [if_pos hlt]; exact ih a
    · rw [if_neg hlt]; exact ih m

lemma argminFirst_isSome {l : List (ℕ × ℚ)} (h : l ≠ []) :
    (argminFirst l).isSome := by
  match l with
  | [] => exact absurd rfl h
  | a :: l =>
    unfold argminFirst
    rw [List.foldl_cons]
    exact argminFirst_aux_isSome _ rfl l a

lemma mem_get_future_positions {positions : List (ℕ × SlicePos)} {s : ℕ}
    {q : ℕ × SlicePos} (h : q ∈ get_future_positions positions s) :
    q ∈ positions ∧ s < q.1 := by
  induction positions with
  | nil => exact absurd h (by rw [get_future_positions]; simp)
  | cons a rest ih =>
    rw [get_future_positions] at h
    by_cases hlt : s < a.1
    · rw [if_pos hlt] at h
      rcases List.mem_cons.mp h with h' | h'
      · subst h'
        exact ⟨List.mem_cons_self _ rest, hlt⟩
      · exact ⟨List.mem_cons_of_mem a (ih h').1, (ih h').2⟩
    · rw [if_neg hlt] at h
      exact ⟨List.mem_cons_of_mem a (ih h).1, (ih h).2⟩

lemma mem_relErrors_key {t : ℚ} {l : List (ℕ × ℚ)} {q : ℕ × ℚ}
    (h : q ∈ relErrors t l) : ∃ v, (q.1, v) ∈ l := by
  unfold relErrors at h
  rcases List.mem_map.mp h with ⟨c, hc, hce⟩
  subst hce
  exact ⟨c.2, by simpa using hc⟩

lemma mem_asdfCoverages_key {positions : List (ℕ × SlicePos)} {s : ℕ}
    {q : ℕ × ℚ} (h : q ∈ asdfCoverages positions s) :
    s < q.1 ∧ ∃ sp, (q.1, sp) ∈ positions := by
  unfold asdfCoverages at h
  rcases List.mem_map.mp h with ⟨fq, hfq, hfqe⟩
  obtain ⟨hmemq, hslt⟩ := mem_get_future_positions hfq
  subst hfqe
  exact ⟨hslt, fq.2, by simpa using hmemq⟩

lemma mem_asdfDistances_key {positions : List (ℕ × SlicePos)} {s : ℕ}
    {q : ℕ × ℚ} (h : q ∈ asdfDistances positions s) :
    s < q.1 ∧ ∃ sp, (q.1, sp) ∈ positions := by
  unfold asdfDistances at h
  rcases List.mem_map.mp h with ⟨fq, hfq, hfqe⟩
  obtain ⟨hmemq, hslt⟩ := mem_get_future_positions hfq
  subst hfqe
  exact ⟨hslt, fq.2, by simpa using hmemq⟩

lemma get_asdf_some_mem {positions : List (ℕ × SlicePos)} {s : ℕ} {t : ℚ}
    {k : ℕ} {e c : ℚ} (h : get_asdf positions s t = some (k, e, c)) :
    s < k ∧ ∃ sp, (k, sp) ∈ positions := by
  unfold get_asdf at h
  cases hq : argminFirst (relErrors t (asdfCoverages positions s)) with
  | none => rw [hq] at h; exact absurd h (by simp)
  | some q =>
    rw [hq] at h
    simp only [Option.some_inj] at h
    have hk : q.1 = k := congrArg Prod.fst h
    rcases mem_relErrors_key (argminFirst_mem hq) with ⟨v, hv⟩
    have := mem_asdfCoverages_key hv
    simp only at this
    exact hk ▸ this

lemma get_asdf1_some_mem {positions : List (ℕ × SlicePos)} {s : ℕ} {t : ℚ}
    {k : ℕ} {e c : ℚ} (h : get_asdf1 positions s t = some (k, e, c)) :
    s < k ∧ ∃ sp, (k, sp) ∈ positions := by
  unfold get_asdf1 at h
  cases hq : argminFirst (relErrors t (asdfDistances positions s)) with
  | none => rw [hq] at h; exact absurd h (by simp)
  | some q =>
    rw [hq] at h
    simp only [Option.some_inj] at h
    have hk : q.1 = k := congrArg Prod.fst h
    rcases mem_relErrors_key (argminFirst_mem hq) with ⟨v, hv⟩
    have := mem_asdfDistances_key hv
    simp only at this
    exact hk ▸ this

lemma get_asdf1_isSome_of_asdf {positions : List (ℕ × SlicePos)} {s : ℕ}
    {x0 x1 : ℚ} {r : ℕ × ℚ × ℚ} (h : get_asdf positions s x0 = some r) :
    ∃ r2, get_asdf1 positions s x1 = some r2 := by
  have hne : get_future_positions positions s ≠ [] := by
    intro hnil
    unfold get_asdf asdfCoverages relErrors at h
    rw [hnil] at h
    simp [argminFirst] at h
  have herrne : relErrors x1 (asdfDistances positions s) ≠ [] := by
    unfold relErrors asdfDistances
    simp only [ne_eq, List.map_eq_nil_iff]
    exact hne
  have hsome := argminFirst_isSome herrne
  unfold get_asdf1
  cases hq : argminFirst (relErrors x1 (asdfDistances positions s)) with
  | none => rw [hq] at hsome; exact absurd hsome (by simp)
  | some q => exact ⟨_, rfl⟩

lemma mem_getSlicePositions_key {N : ℕ} {L th : ℚ} {k : ℕ} {sp : SlicePos}
    (h : (k, sp) ∈ getSlicePositions N L th) : 1 ≤ k ∧ k ≤ N := by
  unfold getSlicePositions at h
  rcases List.mem_map.mp h with ⟨i, hi, hie⟩
  have hk : i = k := congrArg Prod.fst hie
  rcases List.mem_range'.mp hi with ⟨j, hj, hje⟩
  omega

lemma getSlicePositions_keys (N : ℕ) (L th : ℚ) :
    (getSlicePositions N L th).map Prod.fst = List.range' 1 N := by
  unfold getSlicePositions
  rw [List.map_map]
  exact List.map_id'' (fun _ => rfl) _

lemma foldl_min_of_le {l : List ℕ} {a : ℕ} (h : ∀ x ∈ l, a ≤ x) :
    l.foldl min a = a := by
  induction l generalizing a with
  | nil => rfl
  | cons x l ih =>
    rw [List.foldl_cons]
    have hax : min a x = a := min_eq_left (h x (List.mem_cons_self x l))
    rw [hax]
    exact ih fun y hy => h y (List.mem_cons_of_mem x hy)

lemma smallestKeyOf_table (N : ℕ) (L th : ℚ) (hN : 1 ≤ N) :
    smallestKeyOf (getSlicePositions N L th) = some 1 := by
  unfold smallestKeyOf
  rw [getSlicePositions_keys]
  match N, hN with
  | n + 1, _ =>
    rw [List.range'_succ]
    simp only
    congr 1
    apply foldl_min_of_le
    intro x hx
    rcases List.mem_range'.mp hx with ⟨j, hj, hje⟩
    omega

/-- The loop never runs out of fuel when the fuel covers the remaining key
range: every iteration either crashes, stops, or strictly advances the start
key, which is bounded by the table keys. -/
lemma gwLoop_no_fuel_out (N : ℕ) (L th x0 x1 d : ℚ) :
    ∀ (fuel next : ℕ) (acc : List WinStep),
      next ≤ N → N + 1 ≤ next + fuel →
      gwLoop (getSlicePositions N L th) x0 x1 d fuel next acc ≠
        GWResult.outOfFuel := by
  intro fuel
  induction fuel with
  | zero => intro next acc h2 h3; omega
  | succ m ih =>
    intro next acc h2 h3
    show gwLoop _ x0 x1 d (m + 1) next acc ≠ GWResult.outOfFuel
    rw [gwLoop]
    cases hA : get_asdf (getSlicePositions N L th) next x0 with
    | none => simp
    | some r =>
      obtain ⟨k, e1, c⟩ := r
      simp only
      by_cases hb : 1 < e1
      · rw [if_pos hb]; simp
      · rw [if_neg hb]
        obtain ⟨⟨k2, e2, d2⟩, hA1⟩ :=
          @get_asdf1_isSome_of_asdf (getSlicePositions N L th) next x0 x1 _ hA
        rw [hA1]
        simp only
        obtain ⟨hlt, sp, hmem⟩ := get_asdf1_some_mem hA1
        have hk2 := mem_getSlicePositions_key hmem
        exact ih k2 _ hk2.2 (by omega)

/-- Recorded step distances never change after the first window: the loop
threads the initial `d` into every pushed record. -/
lemma gwLoop_distance_const (positions : List (ℕ × SlicePos)) (x0 x1 d : ℚ) :
    ∀ (fuel next : ℕ) (acc ws : List WinStep),
      gwLoop positions x0 x1 d fuel next acc = GWResult.ok ws →
      (∀ w ∈ acc, w.step.distance_mm = d) →
      ∀ w ∈ ws, w.step.distance_mm = d := by
  intro fuel
  induction fuel with
  | zero => intro next acc ws h hacc; exact absurd h (by rw [gwLoop]; simp)
  | succ m ih =>
    intro next acc ws h hacc
    rw [gwLoop] at h
    cases hA : get_asdf positions next x0 with
    | none => rw [hA] at h; exact absurd h (by simp)
    | some r =>
      obtain ⟨k, e1, c⟩ := r
      rw [hA] at h
      simp only at h
      by_cases hb : 1 < e1
      · rw [if_pos hb] at h
        have hws : acc = ws := by
          have := h
          injection this
        exact hws ▸ hacc
      · rw [if_neg hb] at h
        cases hA1 : get_asdf1 positions next x1 with
        | none => rw [hA1] at h; exact absurd h (by simp)
        | some r2 =>
          obtain ⟨k2, e2, d2⟩ := r2
          rw [hA1] at h
          simp only at h
          refine ih k2 _ ws h ?_
          intro w hw
          rcases List.mem_append.mp hw with hw' | hw'
          · exact hacc w hw'
          · rcases List.mem_singleton.mp hw' with rfl
            rfl

/-- Window bounds and strict ordering are preserved by the loop: every pushed
window starts at the current key (at least 1), ends strictly later within the
table, and accumulates in strictly increasing start order. -/
lemma gwLoop_window_inv (positions : List (ℕ × SlicePos)) (N : ℕ)
    (x0 x1 d : ℚ) (hub : ∀ q ∈ positions, q.1 ≤ N) :
    ∀ (fuel next : ℕ) (acc ws : List WinStep),
      gwLoop positions x0 x1 d fuel next acc = GWResult.ok ws →
      1 ≤ next →
      (∀ w ∈ acc, 1 ≤ w.window.start_img ∧
        w.window.start_img < w.window.end_img ∧ w.window.end_img ≤ N) →
      (∀ w ∈ acc, w.window.start_img < next) →
      acc.Pairwise (fun a b => a.window.start_img < b.window.start_img) →
      (∀ w ∈ ws, 1 ≤ w.window.start_img ∧
        w.window.start_img < w.window.end_img ∧ w.window.end_img ≤ N) ∧
      ws.Pairwise (fun a b => a.window.start_img < b.window.start_img) := by
  intro fuel
  induction fuel with
  | zero =>
    intro next acc ws h
    exact absurd h (by rw [gwLoop]; simp)
  | succ m ih =>
    intro next acc ws h hnext hbounds hlt hpw
    rw [gwLoop] at h
    cases hA : get_asdf positions next x0 with
    | none => rw [hA] at h; exact absurd h (by simp)
    | some r =>
      obtain ⟨k, e1, c⟩ := r
      rw [hA] at h
      simp only at h
      by_cases hb : 1 < e1
      · rw [if_pos hb] at h
        have hws : acc = ws := by injection h
        exact hws ▸ ⟨hbounds, hpw⟩
      · rw [if_neg hb] at h
        cases hA1 : get_asdf1 positions next x1 with
        | none => rw [hA1] at h; exact absurd h (by simp)
        | some r2 =>
          obtain ⟨k2, e2, d2⟩ := r2
          rw [hA1] at h
          simp only at h
          obtain ⟨hnk, spk, hmemk⟩ := get_asdf_some_mem hA
          obtain ⟨hnk2, spk2, hmemk2⟩ := get_asdf1_some_mem hA1
          have hkN : k ≤ N := hub _ hmemk
          refine ih k2 _ ws h (by omega) ?_ ?_ ?_
          · intro w hw
            rcases List.mem_append.mp hw with hw' | hw'
            · exact hbounds w hw'
            · rcases List.mem_singleton.mp hw' with rfl
              exact ⟨hnext, hnk, hkN⟩
          · intro w hw
            rcases List.mem_append.mp hw with hw' | hw'
            · exact lt_trans (hlt w hw') hnk2
            · rcases List.mem_singleton.mp hw' with rfl
              exact hnk2
          · rw [List.pairwise_append]
            refine ⟨hpw, List.pairwise_singleton _ _, ?_⟩
            intro a ha b hb'
            rcases List.mem_singleton.mp hb' with rfl
            exact hlt a ha

/-- From the second window on, a window is pushed only when its span-match
error is within the 1 percent tolerance. -/
lemma gwLoop_tail_errors (positions : List (ℕ × SlicePos)) (x0 x1 d : ℚ) :
    ∀ (fuel next : ℕ) (a0 : WinStep) (rest ws : List WinStep),
      gwLoop positions x0 x1 d fuel next (a0 :: rest) = GWResult.ok ws →
      (∀ w ∈ rest, w.window.error ≤ 1) →
      ws.head? = some a0 ∧ ∀ w ∈ ws.tail, w.window.error ≤ 1 := by
  intro fuel
  induction fuel with
  | zero =>
    intro next a0 rest ws h
    exact absurd h (by rw [gwLoop]; simp)
  | succ m ih =>
    intro next a0 rest ws h hrest
    rw [gwLoop] at h
    cases hA : get_asdf positions next x0 with
    | none => rw [hA] at h; exact absurd h (by simp)
    | some r =>
      obtain ⟨k, e1, c⟩ := r
      rw [hA] at h
      simp only at h
      by_cases hb : 1 < e1
      · rw [if_pos hb] at h
        have hws : a0 :: rest = ws := by injection h
        subst hws
        exact ⟨rfl, hrest⟩
      · rw [if_neg hb] at h
        cases hA1 : get_asdf1 positions next x1 with
        | none => rw [hA1] at h; exact absurd h (by simp)
        | some r2 =>
          obtain ⟨k2, e2, d2⟩ := r2
          rw [hA1] at h
          simp only at h
          rw [List.cons_append] at h
          refine ih k2 a0 _ ws h ?_
          intro w hw
          rcases List.mem_append.mp hw with hw' | hw'
          · exact hrest w hw'
          · rcases List.mem_singleton.mp hw' with rfl
            exact not_lt.mp hb

/-! ## Window materialization of src/index.js (`calculateWindows`, lines 44-64)

The index.js variant builds 0-based windows `start = i * stepSize`,
`end = min(start + windowSize - 1, totalImages - 1)` for
`i = 0 .. numWindows - 1`, breaking once `start >= totalImages`. -/

/-- `centerIndex = start + (Math.min(windowSize, totalImages - start) - 1) / 2`. -/
def cwCenter (totalImages windowSize : ℕ) (start : ℤ) : ℚ :=
  (start : ℚ) + (min (windowSize : ℚ) ((((totalImages : ℤ) - start) : ℤ) : ℚ) - 1) / 2

/-- One window object `{start, end, center, centercm}` of index.js
(`end` is a Lean keyword, hence the field name `endIdx`). -/
structure CWin where
  start : ℤ
  endIdx : ℤ
  center : ℚ
  centercm : ℚ
deriving DecidableEq

/-- The window-building loop of index.js `calculateWindows`; `rem` counts the
remaining iterations (`numWindows - i`). -/
def calcWindowsAux (totalImages windowSize : ℕ) (stepSize : ℤ)
    (sliceInterval : ℚ) : ℕ → ℕ → List CWin
  | 0, _ => []
  | rem + 1, i =>
    if (totalImages : ℤ) ≤ (i : ℤ) * stepSize then []
    else
      { start := (i : ℤ) * stepSize
        endIdx := min ((i : ℤ) * stepSize + (windowSize : ℤ) - 1) ((totalImages : ℤ) - 1)
        center := cwCenter totalImages windowSize ((i : ℤ) * stepSize)
        centercm := cwCenter totalImages windowSize ((i : ℤ) * stepSize) * sliceInterval } ::
        calcWindowsAux totalImages windowSize stepSize sliceInterval rem (i + 1)

/-- The window list produced by index.js `calculateWindows` (the DOM reads
are the caller's input collection; the algorithmic part is the composition of
`optimizeWindowSize` with the window-building loop). -/
def calculateWindows (totalImages numWindows overlapPercent : ℕ)
    (sliceInterval : ℚ) : List CWin :=
  calcWindowsAux totalImages (optimizeWindowSize totalImages numWindows overlapPercent)
    (owsStepSize (optimizeWindowSize totalImages numWindows overlapPercent) overlapPercent)
    sliceInterval numWindows 0

lemma owsStepSize_pos_of_lt_100 {w p : ℕ} (hw : 1 ≤ w) (hp : p < 100) :
    1 ≤ owsStepSize w p := by
  unfold owsStepSize owsOverlapSize
  have hmul : w * p < 100 * w := by
    rw [Nat.mul_comm 100 w]
    exact mul_lt_mul_of_pos_left hp (by omega)
  have hdiv : w * p / 100 < w := Nat.div_lt_of_lt_mul hmul
  have : (w * p / 100 : ℤ) < (w : ℤ) := by exact_mod_cast hdiv
  omega

lemma calcWindowsAux_inv (T w : ℕ) (step : ℤ) (si : ℚ) (hw : 1 ≤ w)
    (hs : 1 ≤ step) :
    ∀ (rem i : ℕ),
      (∀ win ∈ calcWindowsAux T w step si rem i,
        (i : ℤ) * step ≤ win.start ∧ 0 ≤ win.start ∧
          win.start ≤ win.endIdx ∧ win.endIdx ≤ (T : ℤ) - 1) ∧
      (calcWindowsAux T w step si rem i).Pairwise (fun a b => a.start < b.start) := by
  intro rem
  induction rem with
  | zero =>
    intro i
    constructor
    · intro win hwin
      exact absurd hwin (by rw [calcWindowsAux]; simp)
    · rw [calcWindowsAux]
      exact List.Pairwise.nil
  | succ m ih =>
    intro i
    rw [calcWindowsAux]
    by_cases hbr : (T : ℤ) ≤ (i : ℤ) * step
    · rw [if_pos hbr]
      exact ⟨fun win hwin => absurd hwin (by simp), List.Pairwise.nil⟩
    · rw [if_neg hbr]
      have hstart : (0 : ℤ) ≤ (i : ℤ) * step :=
        mul_nonneg (by exact_mod_cast Nat.zero_le i) (by omega)
      have hstartT : (i : ℤ) * step < (T : ℤ) := lt_of_not_le hbr
      have hnextge : ∀ win ∈ calcWindowsAux T w step si m (i + 1),
          ((i : ℤ) + 1) * step ≤ win.start := by
        intro win hwin
        have := ((ih (i + 1)).1 win hwin).1
        have hcast : ((i + 1 : ℕ) : ℤ) = (i : ℤ) + 1 := by push_cast; ring
        rw [hcast] at this
        exact this
      constructor
      · intro win hwin
        rcases List.mem_cons.mp hwin with rfl | hwin'
        · dsimp only
          refine ⟨le_rfl, hstart, ?_, min_le_right _ _⟩
          apply le_min
          · have hwZ : (1 : ℤ) ≤ (w : ℤ) := by exact_mod_cast hw
            omega
          · omega
        · have h1 := (ih (i + 1)).1 win hwin'
          have h2 := hnextge win hwin'
          refine ⟨?_, h1.2.1, h1.2.2.1, h1.2.2.2⟩
          have : (i : ℤ) * step ≤ ((i : ℤ) + 1) * step := by nlinarith
          omega
      · refine List.Pairwise.cons ?_ (ih (i + 1)).2
        intro b hb
        dsimp only
        have h2 := hnextge b hb
        have : (i : ℤ) * step < ((i : ℤ) + 1) * step := by nlinarith
        omega

/-! ## The 4-criterion Nelder-Mead objective of src/unnamed/part_000
(`optimizeWithNelderMead` / `objectiveFunction`, lines 28-109) -/

/-- JS `a || b` on numbers: `0` is falsy (`NaN` is not modelled; the inputs
reaching these spots are ordinary numbers). -/
def jsOr (a b : ℚ) : ℚ := if a = 0 then b else a

/-- The four criterion keys of the part_000 optimizer. -/
structure Crit4 where
  window_length : ℚ
  window_number : ℚ
  step_or_overlap : ℚ
  percentage : ℚ
deriving DecidableEq

namespace Part000

/-- Weight normalization of `optimizeWithNelderMead` (part_000 lines 29-42):
`weights[k] || 0` is the identity on numbers, an all-zero sum is replaced by
0.25 per key (then divided by the reset sum 1). -/
def normalizeWeights (w : Crit4) : Crit4 :=
  if w.window_length + w.window_number + w.step_or_overlap + w.percentage = 0 then
    ⟨1 / 4, 1 / 4, 1 / 4, 1 / 4⟩
  else
    ⟨w.window_length / (w.window_length + w.window_number + w.step_or_overlap + w.percentage),
     w.window_number / (w.window_length + w.window_number + w.step_or_overlap + w.percentage),
     w.step_or_overlap / (w.window_length + w.window_number + w.step_or_overlap + w.percentage),
     w.percentage / (w.window_length + w.window_number + w.step_or_overlap + w.percentage)⟩

/-- The `scale` record (part_000 lines 45-56). -/
def scaleOf (targets : Crit4) (sliceInterval : ℚ) : Crit4 :=
  ⟨max (jsOr targets.window_length (5 * sliceInterval)) sliceInterval,
   max (jsOr targets.window_number 4) 2,
   max (jsOr targets.step_or_overlap (2 * sliceInterval)) sliceInterval,
   max (jsOr targets.percentage 80) 1⟩

/-- `clampInt(x, lo, hi) = Math.max(lo, Math.min(hi, Math.floor(x)))`. -/
def clampInt (x : ℚ) (lo hi : ℤ) : ℤ := max lo (min hi ⌊x⌋)

/-- `windowCm = Math.max(params[0], sliceInterval)`. -/
def windowCm (si p0 : ℚ) : ℚ := max p0 si

/-- `stepCm = Math.max(params[2], sliceInterval)`. -/
def stepCm (si p2 : ℚ) : ℚ := max p2 si

/-- `windowImages = clampInt(windowCm / sliceInterval, 1, totalImages)`. -/
def windowImages (T : ℕ) (si p0 : ℚ) : ℤ := clampInt (windowCm si p0 / si) 1 T

/-- `stepImages = clampInt(stepCm / sliceInterval, 1, max(1, windowImages - 1))`. -/
def stepImages (T : ℕ) (si p0 p2 : ℚ) : ℤ :=
  clampInt (stepCm si p2 / si) 1 (max 1 (windowImages T si p0 - 1))

/-- `numWindows = Math.floor((totalImages - windowImages) / stepImages) + 1`
(`stepImages` is at least 1, so the JS real division followed by floor is
integer floor division). -/
def numWindows (T : ℕ) (si p0 p2 : ℚ) : ℤ :=
  Int.fdiv ((T : ℤ) - windowImages T si p0) (stepImages T si p0 p2) + 1

/-- `lastEnd = (numWindows - 1) * stepImages + windowImages - 1`. -/
def lastEnd (T : ℕ) (si p0 p2 : ℚ) : ℤ :=
  (numWindows T si p0 p2 - 1) * stepImages T si p0 p2 + windowImages T si p0 - 1

/-- `coveragePct = Math.min(lastEnd + 1, totalImages) / totalImages * 100`. -/
def coveragePct (T : ℕ) (si p0 p2 : ℚ) : ℚ :=
  ((min (lastEnd T si p0 p2 + 1) (T : ℤ) : ℤ) : ℚ) / (T : ℚ) * 100

/-- One summand of the cost loop (part_000 lines 97-104):
`weights[k] * h(e)` with `e = |v[k] - targets[k]| / (scale[k] || 1)` and the
inline `h(e) = e < 1 ? 0.5*e*e : e - 0.5`. -/
def critCost (wk tk sk vk : ℚ) : ℚ :=
  wk * (if |vk - tk| / jsOr sk 1 < 1
        then 0.5 * (|vk - tk| / jsOr sk 1) * (|vk - tk| / jsOr sk 1)
        else |vk - tk| / jsOr sk 1 - 0.5)

/-- `objectiveFunction(params)` (part_000 lines 62-109).  `p1` is the
`window_number` placeholder the source never reads; the source's unused local
`pctTgt` is omitted.  Infeasible candidates return the fixed penalty `1e3`;
otherwise the summed cost gets `+5` when `stepImages >= windowImages` and is
scaled by 100. -/
def objectiveFunction (T : ℕ) (targets : Crit4) (si : ℚ) (weights : Crit4)
    (p0 p1 p2 p3 : ℚ) : ℚ :=
  if numWindows T si p0 p2 < 2 then 1000
  else if (T : ℤ) ≤ lastEnd T si p0 p2 then 1000
  else
    ((critCost weights.window_length targets.window_length
        (scaleOf targets si).window_length (windowCm si p0) +
      critCost weights.window_number targets.window_number
        (scaleOf targets si).window_number ((numWindows T si p0 p2 : ℚ)) +
      critCost weights.step_or_overlap targets.step_or_overlap
        (scaleOf targets si).step_or_overlap (stepCm si p2) +
      critCost weights.percentage targets.percentage
        (scaleOf targets si).percentage (coveragePct T si p0 p2)) +
      (if windowImages T si p0 ≤ stepImages T si p0 p2 then 5 else 0)) * 100

end Part000

/-! ## Definitions written from the spec's words, for comparison -/

/-- Follows the spec wording of the cost evaluator (spec section 4.3):
Huber-like smoothing `h(e) = 0.5 * e^2` for `e < 1`, else `e - 0.5`. -/
def specHuber (e : ℚ) : ℚ := if e < 1 then e ^ 2 / 2 else e - 1 / 2

/-- Follows the spec wording of claim C4: the weighted sum over the three
position-aware criteria of `h(e)` with `e = |observed - target| /
max(target, eps)` for a small positive floor `eps`. -/
def specCostHuber (stats targets weights : Crit3) (eps : ℚ) : ℚ :=
  weights.total_coverage * specHuber
    (|stats.total_coverage - targets.total_coverage| / max targets.total_coverage eps) +
  weights.window_coverage * specHuber
    (|stats.window_coverage - targets.window_coverage| / max targets.window_coverage eps) +
  weights.step_size * specHuber
    (|stats.step_size - targets.step_size| / max targets.step_size eps)

/-- Follows the spec wording of claim C7: the arithmetic mean, over the
`n - 1` adjacent window pairs, of the physical distance between the two
windows' start positions. -/
def specAdjacentStepMean (positions : List (ℕ × SlicePos))
    (windows : List WinStep) : ℚ :=
  ((windows.zip windows.tail).map fun pr =>
    distance_mm (lookupPos positions pr.1.window.start_img)
      (lookupPos positions pr.2.window.start_img)).sum /
    ((windows.length - 1 : ℕ) : ℚ)

/-! ## Remaining helper lemmas -/

lemma sum_map_const {α : Type} (l : List α) (f : α → ℚ) (d : ℚ)
    (h : ∀ x ∈ l, f x = d) : (l.map f).sum = (l.length : ℚ) * d := by
  induction l with
  | nil => simp
  | cons a l ih =>
    rw [List.map_cons, List.sum_cons,
      ih (fun x hx => h x (List.mem_cons_of_mem a hx)), h a (List.mem_cons_self a l)]
    rw [List.length_cons]
    push_cast
    ring

lemma get_windows_ok_elim {positions : List (ℕ × SlicePos)} {x0 x1 : ℚ}
    {fuel : ℕ} {ws : List WinStep}
    (h : get_windows positions x0 x1 fuel = GWResult.ok ws) :
    ∃ s k e1 c k2 e2 d, smallestKeyOf positions = some s ∧
      get_asdf positions s x0 = some (k, e1, c) ∧
      get_asdf1 positions s x1 = some (k2, e2, d) ∧
      gwLoop positions x0 x1 d fuel k2
        [mkWinStep positions s k e1 c k2 e2 d] = GWResult.ok ws := by
  unfold get_windows at h
  cases hs : smallestKeyOf positions with
  | none => rw [hs] at h; exact absurd h (by simp)
  | some s =>
    rw [hs] at h
    simp only at h
    cases hA : get_asdf positions s x0 with
    | none => rw [hA] at h; exact absurd h (by simp)
    | some r =>
      obtain ⟨k, e1, c⟩ := r
      rw [hA] at h
      simp only at h
      cases hA1 : get_asdf1 positions s x1 with
      | none => rw [hA1] at h; exact absurd h (by simp)
      | some r2 =>
        obtain ⟨k2, e2, d⟩ := r2
        rw [hA1] at h
        simp only at h
        exact ⟨s, k, e1, c, k2, e2, d, rfl, hA, hA1, h⟩

lemma get_windows_outOfFuel_elim {positions : List (ℕ × SlicePos)} {x0 x1 : ℚ}
    {fuel : ℕ} (h : get_windows positions x0 x1 fuel = GWResult.outOfFuel) :
    ∃ s k e1 c k2 e2 d, smallestKeyOf positions = some s ∧
      get_asdf positions s x0 = some (k, e1, c) ∧
      get_asdf1 positions s x1 = some (k2, e2, d) ∧
      gwLoop positions x0 x1 d fuel k2
        [mkWinStep positions s k e1 c k2 e2 d] = GWResult.outOfFuel := by
  unfold get_windows at h
  cases hs : smallestKeyOf positions with
  | none => rw [hs] at h; exact absurd h (by simp)
  | some s =>
    rw [hs] at h
    simp only at h
    cases hA : get_asdf positions s x0 with
    | none => rw [hA] at h; exact absurd h (by simp)
    | some r =>
      obtain ⟨k, e1, c⟩ := r
      rw [hA] at h
      simp only at h
      cases hA1 : get_asdf1 positions s x1 with
      | none => rw [hA1] at h; exact absurd h (by simp)
      | some r2 =>
        obtain ⟨k2, e2, d⟩ := r2
        rw [hA1] at h
        simp only at h
        exact ⟨s, k, e1, c, k2, e2, d, rfl, hA, hA1, h⟩

/-- Projects the per-window span-match errors out of a generator result. -/
def GWResult.windowErrors : GWResult → Option (List ℚ)
  | GWResult.ok ws => some (ws.map fun w => w.window.error)
  | _ => none

/-! ## Concrete runs used by witnesses and counterexamples

`get_windows (getSlicePositions 4 3 1) 3 1` (4 items, unit spacing, span
target 3, step target 1) emits exactly the two windows below and then stops
with span error 100/3 at start key 3. -/

/-- First window of the concrete run over `getSlicePositions 4 3 1`. -/
def runW1 : WinStep :=
  { window := { start_img := 1, start_idx := 0, start_mm := 3, end_img := 3
                end_idx := 2, end_mm := 1, error := 0, coverage_mm := 3
                coverage_imgs := 3, center_idx := 2, center_mm := 2 }
    step := { img := 2, idx := 1, mm := none, error := 0, distance_mm := 1
              distance_imgs := 2 } }

/-- Second window of the concrete run over `getSlicePositions 4 3 1`. -/
def runW2 : WinStep :=
  { window := { start_img := 2, start_idx := 1, start_mm := 2, end_img := 4
                end_idx := 3, end_mm := 0, error := 0, coverage_mm := 3
                coverage_imgs := 3, center_idx := 3, center_mm := 1 }
    step := { img := 3, idx := 2, mm := none, error := 0, distance_mm := 1
              distance_imgs := 2 } }

/-- `runW1` with a tampered recorded step distance (5 instead of 1). -/
def runW1x : WinStep := { runW1 with step := { runW1.step with distance_mm := 5 } }

/-- `runW2` with a tampered recorded step distance (5 instead of 1). -/
def runW2x : WinStep := { runW2 with step := { runW2.step with distance_mm := 5 } }

/-! ## Claim theorems -/

/-- C1: for every itemCount ≥ 1, windowCount ≥ 1 and overlapPercent with at
least one feasible candidate size (positive step, last window inside the
sequence), `optimizeWindowSize` returns a feasible window size in
`[1, itemCount]` maximizing the achieved coverage, and among the
coverage-maximizing candidates the smallest size wins (increasing iteration
with strict-greater comparison); the search is a pure function, hence
deterministic. -/
theorem optimizeWindowSize_bruteforce_optimal (T n p : ℕ) (hT : 1 ≤ T)
    (hn : 1 ≤ n) (hex : ∃ w, owsFeasible T n w p) :
    owsFeasible T n (optimizeWindowSize T n p) p ∧
    (∀ w, owsFeasible T n w p →
      owsCoverage T n w p ≤ owsCoverage T n (optimizeWindowSize T n p) p) ∧
    (∀ w, owsFeasible T n w p →
      owsCoverage T n w p = owsCoverage T n (optimizeWindowSize T n p) p →
      optimizeWindowSize T n p ≤ w) :=
  optimizeWindowSize_spec T n p hT hn hex

/-- Witness for C1 at the spec's own example (20 items, 4 windows, 25
percent overlap): the returned size is feasible and its coverage dominates
the feasible candidate 4. -/
theorem optimizeWindowSize_bruteforce_optimal_witness :
    owsFeasible 20 4 (optimizeWindowSize 20 4 25) 25 ∧
    owsCoverage 20 4 4 25 ≤ owsCoverage 20 4 (optimizeWindowSize 20 4 25) 25 := by
  have h := optimizeWindowSize_bruteforce_optimal 20 4 25 (by decide) (by decide)
    ⟨1, by decide⟩
  exact ⟨h.1, h.2.1 4 (by decide)⟩

/-- C10: `optimizeWindowSize` is total and never signals failure: for every
itemCount ≥ 1, windowCount and overlapPercent it returns a size in
`[1, itemCount]`, and when no size has both a positive step and a last
window inside the sequence it silently returns the default size 1. -/
theorem optimizeWindowSize_total_default_one (T n p : ℕ) (hT : 1 ≤ T) :
    1 ≤ optimizeWindowSize T n p ∧ optimizeWindowSize T n p ≤ T ∧
      ((∀ w, ¬ owsFeasible T n w p) → optimizeWindowSize T n p = 1) :=
  optimizeWindowSize_default_spec T n p hT

/-- Witness for C10 at 5 items, 2 windows, 100 percent overlap: every
candidate has step 0, so no size is feasible and the default 1 is returned. -/
theorem optimizeWindowSize_total_default_one_witness :
    1 ≤ optimizeWindowSize 5 2 100 ∧ optimizeWindowSize 5 2 100 ≤ 5 ∧
      optimizeWindowSize 5 2 100 = 1 := by
  have h := optimizeWindowSize_total_default_one 5 2 100 (by decide)
  refine ⟨h.1, h.2.1, h.2.2 ?_⟩
  intro w hf
  have hs := hf.2.2.1
  unfold owsStepSize owsOverlapSize at hs
  rw [Nat.mul_div_cancel w (by norm_num : 0 < 100)] at hs
  omega

/-- C3: for every position table the generator with fuel equal to the item
count always completes, returning a window list or the crash value — it
never exhausts itemCount window-generation steps, because every iteration
stops, crashes, or strictly advances the window start key (the step-match
candidates are strictly future keys, so progress is strict even for a tiny
step target). -/
theorem get_windows_terminates_within_itemCount (N : ℕ) (L th x0 x1 : ℚ) :
    (∃ ws, get_windows (getSlicePositions N L th) x0 x1 N = GWResult.ok ws) ∨
    get_windows (getSlicePositions N L th) x0 x1 N = GWResult.crash := by
  cases hr : get_windows (getSlicePositions N L th) x0 x1 N with
  | ok ws => exact Or.inl ⟨ws, rfl⟩
  | crash => exact Or.inr rfl
  | outOfFuel =>
    exfalso
    obtain ⟨s, k, e1, c, k2, e2, d, hsk, hA, hA1, hl⟩ := get_windows_outOfFuel_elim hr
    obtain ⟨hlt, sp, hmem⟩ := get_asdf1_some_mem hA1
    have hk2 := mem_getSlicePositions_key hmem
    exact gwLoop_no_fuel_out N L th x0 x1 d N k2 _ hk2.2 (by omega) hl

/-- C2 counterexample: on the 3-item table of length 10 with span target 100
and step target 1, the generator emits a first window whose span-match error
is 89 percent — far beyond the 1 percent tolerance — instead of returning an
empty sequence; the tolerance guard never applies to the first window. -/
theorem get_windows_first_window_tolerance_cex :
    GWResult.windowErrors (get_windows (getSlicePositions 3 10 1) 100 1 3) =
      some [89] ∧ ¬ ((89 : ℚ) ≤ 1) := by
  constructor
  · norm_num [GWResult.windowErrors, get_windows, smallestKeyOf, gwLoop, get_asdf, get_asdf1, asdfCoverages,
    asdfDistances, relErrors, argminFirst, get_future_positions, lookupPos, lookupVal,
    coverage_mm, distance_mm, thickness_mm, mkWinStep, getSlicePositions,
    List.range', List.foldl, runW1, runW2]
  · norm_num

/-- C2 (amended): the tolerance guard applies only from the second window on:
whenever the generator returns a window list, that list is non-empty (the
first window is emitted unconditionally, whatever its span-match error), and
every window after the first has span-match error at most 1 percent. -/
theorem get_windows_first_window_unguarded (positions : List (ℕ × SlicePos))
    (x0 x1 : ℚ) (fuel : ℕ) (ws : List WinStep)
    (h : get_windows positions x0 x1 fuel = GWResult.ok ws) :
    ws ≠ [] ∧ ∀ w ∈ ws.tail, w.window.error ≤ 1 := by
  obtain ⟨s, k, e1, c, k2, e2, d, hsk, hA, hA1, hl⟩ := get_windows_ok_elim h
  have hte := gwLoop_tail_errors positions x0 x1 d fuel k2
    (mkWinStep positions s k e1 c k2 e2 d) [] ws hl (by simp)
  refine ⟨?_, hte.2⟩
  intro hnil
  rw [hnil] at hte
  exact absurd hte.1 (by simp)

/-- Witness for C2 (amended) at the concrete 4-item run: the result is
non-empty and its second window is within tolerance. -/
theorem get_windows_first_window_unguarded_witness :
    ([runW1, runW2] : List WinStep) ≠ [] ∧ runW2.window.error ≤ 1 := by
  have h := get_windows_first_window_unguarded (getSlicePositions 4 3 1) 3 1 4
    [runW1, runW2]
    (by norm_num [get_windows, smallestKeyOf, gwLoop, get_asdf, get_asdf1, asdfCoverages,
    asdfDistances, relErrors, argminFirst, get_future_positions, lookupPos, lookupVal,
    coverage_mm, distance_mm, thickness_mm, mkWinStep, getSlicePositions,
    List.range', List.foldl, runW1, runW2])
  exact ⟨h.1, h.2 runW2 (by simp)⟩

/-- C6 counterexample: the index.js window path is 0-based — at 5 items, 2
windows, 0 percent overlap the produced start indices are [0, 2], so the
first produced window violates `1 ≤ startIndex`. -/
theorem produced_windows_zero_based_cex :
    (calculateWindows 5 2 0 1).map CWin.start = [0, 2] ∧
    ((calculateWindows 5 2 0 1).all fun w => decide (1 ≤ w.start)) = false := by
  constructor
  · norm_num [calculateWindows, calcWindowsAux, cwCenter, optimizeWindowSize, owsStep,
    owsCoverage, owsLastEnd, owsStepSize, owsOverlapSize, List.range', List.foldl]
  · norm_num [calculateWindows, calcWindowsAux, cwCenter, optimizeWindowSize, owsStep,
    owsCoverage, owsLastEnd, owsStepSize, owsOverlapSize, List.range', List.foldl]

/-- C6 (amended): in the position-aware path every produced window satisfies
`1 ≤ start_img < end_img ≤ itemCount` and windows are strictly ordered by
start key; in the index.js path windows are 0-based — `0 ≤ start ≤ end ≤
itemCount - 1` — and strictly ordered by start when overlapPercent < 100
(which makes the step positive). -/
theorem produced_windows_invariants :
    (∀ (N : ℕ) (L th x0 x1 : ℚ) (fuel : ℕ) (ws : List WinStep),
      get_windows (getSlicePositions N L th) x0 x1 fuel = GWResult.ok ws →
      (∀ w ∈ ws, 1 ≤ w.window.start_img ∧
        w.window.start_img < w.window.end_img ∧ w.window.end_img ≤ N) ∧
      ws.Pairwise (fun a b => a.window.start_img < b.window.start_img)) ∧
    (∀ (T n p : ℕ) (si : ℚ), 1 ≤ T → p < 100 →
      (∀ w ∈ calculateWindows T n p si, 0 ≤ w.start ∧
        w.start ≤ w.endIdx ∧ w.endIdx ≤ (T : ℤ) - 1) ∧
      (calculateWindows T n p si).Pairwise (fun a b => a.start < b.start)) := by
  constructor
  · intro N L th x0 x1 fuel ws h
    obtain ⟨s, k, e1, c, k2, e2, d, hsk, hA, hA1, hl⟩ := get_windows_ok_elim h
    obtain ⟨hsk2, spk2, hmemk2⟩ := get_asdf1_some_mem hA1
    obtain ⟨hskk, spk, hmemk⟩ := get_asdf_some_mem hA
    have hkb := mem_getSlicePositions_key hmemk
    have hk2b := mem_getSlicePositions_key hmemk2
    have hN1 : 1 ≤ N := le_trans hkb.1 hkb.2
    have hs1 : s = 1 := by
      have h2 := smallestKeyOf_table N L th hN1
      rw [hsk] at h2
      exact Option.some_inj.mp h2
    subst hs1
    have hub : ∀ q ∈ getSlicePositions N L th, q.1 ≤ N := by
      intro q hq
      exact (mem_getSlicePositions_key (show (q.1, q.2) ∈ _ from hq)).2
    refine gwLoop_window_inv (getSlicePositions N L th) N x0 x1 d hub fuel k2 _
      ws hl (by omega) ?_ ?_ ?_
    · intro w hw
      rcases List.mem_singleton.mp hw with rfl
      exact ⟨le_rfl, hskk, hkb.2⟩
    · intro w hw
      rcases List.mem_singleton.mp hw with rfl
      exact hsk2
    · exact List.pairwise_singleton _ _
  · intro T n p si hT hp
    have hbest := optimizeWindowSize_default_spec T n p hT
    have hstep : 1 ≤ owsStepSize (optimizeWindowSize T n p) p :=
      owsStepSize_pos_of_lt_100 hbest.1 hp
    have h := calcWindowsAux_inv T (optimizeWindowSize T n p)
      (owsStepSize (optimizeWindowSize T n p) p) si hbest.1 hstep n 0
    unfold calculateWindows
    exact ⟨fun w hw => ⟨(h.1 w hw).2.1, (h.1 w hw).2.2.1, (h.1 w hw).2.2.2⟩, h.2⟩

/-- Witness for C6 (amended): strict start ordering on the concrete 4-item
position-aware run and on the concrete index.js run (5 items, 2 windows, 0
percent overlap). -/
theorem produced_windows_invariants_witness :
    List.Pairwise (fun a b => a.window.start_img < b.window.start_img)
      ([runW1, runW2] : List WinStep) ∧
    (calculateWindows 5 2 0 1).Pairwise (fun a b => a.start < b.start) := by
  refine ⟨?_, ?_⟩
  · exact (produced_windows_invariants.1 4 3 1 3 1 4 [runW1, runW2]
      (by norm_num [get_windows, smallestKeyOf, gwLoop, get_asdf, get_asdf1, asdfCoverages,
    asdfDistances, relErrors, argminFirst, get_future_positions, lookupPos, lookupVal,
    coverage_mm, distance_mm, thickness_mm, mkWinStep, getSlicePositions,
    List.range', List.foldl, runW1, runW2])).2
  · exact (produced_windows_invariants.2 5 2 0 1 (by norm_num) (by norm_num)).2

/-- C7 counterexample: `get_stats` averages the recorded `step.distance_mm`
field over all n windows (the last included) — it is not a function of the
windows' start positions.  For this well-typed 2-window sequence over the
4-item table the statistic is 5 while the arithmetic mean over the single
adjacent pair of actual start-position distances is 1. -/
theorem step_mean_adjacent_pairs_cex :
    (get_stats (getSlicePositions 4 3 1) [runW1x, runW2x]).step_size = 5 ∧
    specAdjacentStepMean (getSlicePositions 4 3 1) [runW1x, runW2x] = 1 ∧
    (5 : ℚ) ≠ 1 := by
  refine ⟨?_, ?_, by norm_num⟩
  · norm_num [get_stats, runW1x, runW2x, runW1, runW2]
  · norm_num [specAdjacentStepMean, List.zip, List.zipWith, distance_mm, lookupPos,
      getSlicePositions, List.range', runW1x, runW2x, runW1, runW2]

/-- C7 (amended): the mean step statistic is the sum of the recorded
per-window step distances divided by the number n of windows — every window,
the last included, carries a step record, and the loop never rebinds the
recorded distance (stale destructuring), so on every generated sequence the
statistic equals the first window's recorded step distance. -/
theorem get_stats_step_size_recorded (positions : List (ℕ × SlicePos))
    (x0 x1 : ℚ) (fuel : ℕ) (w : WinStep) (rest : List WinStep)
    (h : get_windows positions x0 x1 fuel = GWResult.ok (w :: rest)) :
    (get_stats positions (w :: rest)).step_size = w.step.distance_mm := by
  obtain ⟨s, k, e1, c, k2, e2, d, hsk, hA, hA1, hl⟩ := get_windows_ok_elim h
  have hconst : ∀ a ∈ (w :: rest), a.step.distance_mm = d := by
    refine gwLoop_distance_const positions x0 x1 d fuel k2 _ _ hl ?_
    intro a ha
    have ha' : a = mkWinStep positions s k e1 c k2 e2 d := List.mem_singleton.mp ha
    rw [ha']
    rfl
  have hwd : w.step.distance_mm = d := hconst w (List.mem_cons_self w rest)
  unfold get_stats
  dsimp only
  rw [sum_map_const (w :: rest) (fun a => a.step.distance_mm) d hconst]
  have hlen : (((w :: rest).length : ℕ) : ℚ) ≠ 0 := by
    rw [Nat.cast_ne_zero]
    simp
  rw [hwd]
  exact mul_div_cancel_left₀ d hlen

/-- Witness for C7 (amended) on the concrete 4-item run. -/
theorem get_stats_step_size_recorded_witness :
    (get_stats (getSlicePositions 4 3 1) [runW1, runW2]).step_size =
      runW1.step.distance_mm :=
  get_stats_step_size_recorded (getSlicePositions 4 3 1) 3 1 4 runW1 [runW2]
    (by norm_num [get_windows, smallestKeyOf, gwLoop, get_asdf, get_asdf1,
      asdfCoverages, asdfDistances, relErrors, argminFirst, get_future_positions,
      lookupPos, lookupVal, coverage_mm, distance_mm, thickness_mm, mkWinStep,
      getSlicePositions, List.range', List.foldl, runW1, runW2])

/-- C4 counterexample: the position-aware cost evaluator returns the weighted
sum of raw percent relative errors, not of Huber-smoothed scaled errors: at
stats (2,1,1), targets (1,1,1) and uniform weights the code's scalar cost is
100/3 while the claimed formula gives 1/6. -/
theorem cost_evaluator_not_huber_cex :
    get_cost_sum ⟨1/3, 1/3, 1/3⟩ (get_errors ⟨2, 1, 1⟩ ⟨1, 1, 1⟩) = 100 / 3 ∧
    specCostHuber ⟨2, 1, 1⟩ ⟨1, 1, 1⟩ ⟨1/3, 1/3, 1/3⟩ (1 / 1000) = 1 / 6 ∧
    (100 / 3 : ℚ) ≠ 1 / 6 := by
  refine ⟨?_, ?_, by norm_num⟩
  · norm_num [get_cost_sum, get_cost, get_errors, get_error]
  · norm_num [specCostHuber, specHuber, max_def]

/-- C4 (amended): the position-aware evaluator computes the weighted sum of
raw percent relative errors `|observed - target| / target * 100` with no
Huber smoothing; the part_000 objective instead returns 100 times the
weighted sum of Huber-smoothed scaled errors plus a 5-point penalty when the
discretized step is not below the discretized window. -/
theorem cost_evaluator_characterization :
    (∀ stats targets weights : Crit3,
      get_cost_sum weights (get_errors stats targets) =
        weights.total_coverage *
          (|stats.total_coverage - targets.total_coverage| / targets.total_coverage * 100) +
        weights.window_coverage *
          (|stats.window_coverage - targets.window_coverage| / targets.window_coverage * 100) +
        weights.step_size *
          (|stats.step_size - targets.step_size| / targets.step_size * 100)) ∧
    (∀ (T : ℕ) (targets weights : Crit4) (si p0 p1 p2 p3 : ℚ),
      2 ≤ Part000.numWindows T si p0 p2 →
      Part000.lastEnd T si p0 p2 < (T : ℤ) →
      Part000.objectiveFunction T targets si weights p0 p1 p2 p3 =
        100 * ((weights.window_length * specHuber
            (|Part000.windowCm si p0 - targets.window_length| /
              jsOr (Part000.scaleOf targets si).window_length 1) +
          weights.window_number * specHuber
            (|(Part000.numWindows T si p0 p2 : ℚ) - targets.window_number| /
              jsOr (Part000.scaleOf targets si).window_number 1) +
          weights.step_or_overlap * specHuber
            (|Part000.stepCm si p2 - targets.step_or_overlap| /
              jsOr (Part000.scaleOf targets si).step_or_overlap 1) +
          weights.percentage * specHuber
            (|Part000.coveragePct T si p0 p2 - targets.percentage| /
              jsOr (Part000.scaleOf targets si).percentage 1)) +
          (if Part000.windowImages T si p0 ≤ Part000.stepImages T si p0 p2
            then 5 else 0))) := by
  constructor
  · intro s t w
    unfold get_cost_sum get_cost get_errors get_error
    rfl
  · intro T targets weights si p0 p1 p2 p3 h2 h3
    unfold Part000.objectiveFunction
    rw [if_neg (by omega), if_neg (by omega)]
    have hh : ∀ wk tk sk vk : ℚ,
        Part000.critCost wk tk sk vk = wk * specHuber (|vk - tk| / jsOr sk 1) := by
      intro wk tk sk vk
      unfold Part000.critCost specHuber
      by_cases hlt : |vk - tk| / jsOr sk 1 < 1
      · rw [if_pos hlt, if_pos hlt]
        ring
      · rw [if_neg hlt, if_neg hlt]
        ring
    rw [hh, hh, hh, hh]
    ring

/-- Witness for C4 (amended) at concrete inputs: the raw weighted percent sum
and the scaled Huber objective, evaluated. -/
theorem cost_evaluator_characterization_witness :
    get_cost_sum ⟨1, 0, 0⟩ (get_errors ⟨2, 1, 1⟩ ⟨1, 1, 1⟩) = 100 ∧
    Part000.objectiveFunction 10 ⟨3, 8, 1, 90⟩ 1 ⟨1/4, 1/4, 1/4, 1/4⟩ 3 0 1 90 =
      25 / 162 := by
  constructor
  · rw [cost_evaluator_characterization.1 ⟨2, 1, 1⟩ ⟨1, 1, 1⟩ ⟨1, 0, 0⟩]
    norm_num
  · rw [cost_evaluator_characterization.2 10 ⟨3, 8, 1, 90⟩ ⟨1/4, 1/4, 1/4, 1/4⟩ 1 3 0 1 90
      (by norm_num [Part000.numWindows, Part000.windowImages, Part000.stepImages,
        Part000.clampInt, Part000.windowCm, Part000.stepCm, Int.fdiv])
      (by norm_num [Part000.lastEnd, Part000.numWindows, Part000.windowImages,
        Part000.stepImages, Part000.clampInt, Part000.windowCm, Part000.stepCm, Int.fdiv])]
    norm_num [Part000.windowCm, Part000.stepCm, Part000.scaleOf, Part000.numWindows,
      Part000.windowImages, Part000.stepImages, Part000.clampInt, Part000.coveragePct,
      Part000.lastEnd, jsOr, specHuber, Int.fdiv]

/-- C5: both weight normalizations of the core produce weights summing to 1,
and an all-zero supplied weight set is replaced by the uniform distribution
(1/3 per criterion in the position-aware variant, 1/4 in the 4-criterion
variant), so no criterion silently vanishes. -/
theorem normalized_weights_sum_one :
    (∀ raw : Crit3,
      (normalizeWeights raw).total_coverage + (normalizeWeights raw).window_coverage +
        (normalizeWeights raw).step_size = 1 ∧
      (raw = ⟨0, 0, 0⟩ → normalizeWeights raw = ⟨1/3, 1/3, 1/3⟩)) ∧
    (∀ w : Crit4,
      (Part000.normalizeWeights w).window_length +
        (Part000.normalizeWeights w).window_number +
        (Part000.normalizeWeights w).step_or_overlap +
        (Part000.normalizeWeights w).percentage = 1 ∧
      (w = ⟨0, 0, 0, 0⟩ → Part000.normalizeWeights w = ⟨1/4, 1/4, 1/4, 1/4⟩)) := by
  constructor
  · intro raw
    unfold normalizeWeights
    by_cases h : raw.window_coverage + raw.step_size + raw.total_coverage = 0
    · rw [if_pos h]
      exact ⟨by norm_num, fun _ => rfl⟩
    · rw [if_neg h]
      refine ⟨?_, fun hz => absurd (by rw [hz]; norm_num) h⟩
      dsimp only
      field_simp
      ring
  · intro w
    unfold Part000.normalizeWeights
    by_cases h : w.window_length + w.window_number + w.step_or_overlap + w.percentage = 0
    · rw [if_pos h]
      exact ⟨by norm_num, fun _ => rfl⟩
    · rw [if_neg h]
      refine ⟨?_, fun hz => absurd (by rw [hz]; norm_num) h⟩
      dsimp only
      field_simp

/-- Witness for C5: the all-zero set yields the uniform distribution, and a
nonzero set is normalized to sum 1. -/
theorem normalized_weights_sum_one_witness :
    normalizeWeights ⟨0, 0, 0⟩ = ⟨1/3, 1/3, 1/3⟩ ∧
    (Part000.normalizeWeights ⟨2, 1, 1, 0⟩).window_length +
      (Part000.normalizeWeights ⟨2, 1, 1, 0⟩).window_number +
      (Part000.normalizeWeights ⟨2, 1, 1, 0⟩).step_or_overlap +
      (Part000.normalizeWeights ⟨2, 1, 1, 0⟩).percentage = 1 :=
  ⟨(normalized_weights_sum_one.1 ⟨0, 0, 0⟩).2 rfl,
   (normalized_weights_sum_one.2 ⟨2, 1, 1, 0⟩).1⟩

/-- C8 counterexample: at item count 3 and total length 0 — an input the
claim says must fail with InvalidInputError — the constructor still returns
a full 3-entry position table (all center offsets 0); the code contains no
validation and no error path. -/
theorem getSlicePositions_no_validation_cex :
    getSlicePositions 3 0 1 = [(1, ⟨0, 1⟩), (2, ⟨0, 1⟩), (3, ⟨0, 1⟩)] ∧
    (getSlicePositions 1 5 1).length = 1 := by
  constructor
  · norm_num [getSlicePositions, List.range']
  · norm_num [getSlicePositions]

/-- C8 (amended): position-table construction performs no input validation
and never fails: for every item count and total length (including item count
below 2 and non-positive lengths) it returns a table with exactly one entry
per item, keyed 1..itemCount. -/
theorem getSlicePositions_always_returns_table (N : ℕ) (L th : ℚ) :
    (getSlicePositions N L th).length = N ∧
    (getSlicePositions N L th).map Prod.fst = List.range' 1 N := by
  refine ⟨?_, getSlicePositions_keys N L th⟩
  unfold getSlicePositions
  rw [List.length_map, List.length_range']

/-- C9 counterexample: center offsets DECREASE with the item index: at 3
items over total length 2 the centers are [2, 1, 0], so the center at index
2 is not strictly larger than the center at index 1 as the claim states. -/
theorem slice_centers_not_increasing_cex :
    (getSlicePositions 3 2 1).map (fun q => q.2.rel_center_mm) = [2, 1, 0] ∧
    ¬ ((2 : ℚ) < 1) := by
  constructor
  · norm_num [getSlicePositions, List.range']
  · norm_num

/-- C9 (amended): positions are evenly spaced with spacing
totalLength/(itemCount - 1), and the center offset strictly DECREASES as the
item index increases (for positive total length and at least 2 items). -/
theorem slice_centers_evenly_spaced_decreasing (N : ℕ) (L th : ℚ) (j : ℕ)
    (hN : 2 ≤ N) (hL : 0 < L) (hj : j < (getSlicePositions N L th).length)
    (hj1 : j + 1 < (getSlicePositions N L th).length) :
    ((getSlicePositions N L th).get ⟨j + 1, hj1⟩).2.rel_center_mm <
      ((getSlicePositions N L th).get ⟨j, hj⟩).2.rel_center_mm ∧
    ((getSlicePositions N L th).get ⟨j, hj⟩).2.rel_center_mm -
      ((getSlicePositions N L th).get ⟨j + 1, hj1⟩).2.rel_center_mm =
      L / ((N : ℚ) - 1) := by
  have hsppos : (0 : ℚ) < L / ((N : ℚ) - 1) := by
    apply div_pos hL
    have h2 : (2 : ℚ) ≤ (N : ℚ) := by exact_mod_cast hN
    linarith
  have hget : ∀ (i : ℕ) (hi : i < (getSlicePositions N L th).length),
      ((getSlicePositions N L th).get ⟨i, hi⟩).2.rel_center_mm =
        ((N : ℚ) - ((1 + i : ℕ) : ℚ)) * (L / ((N : ℚ) - 1)) := by
    intro i hi
    simp only [List.get_eq_getElem, getSlicePositions, List.getElem_map,
      List.getElem_range']
    push_cast
    ring
  rw [hget j hj, hget (j + 1) hj1]
  constructor
  · apply mul_lt_mul_of_pos_right _ hsppos
    push_cast
    linarith
  · push_cast
    ring

/-- Witness for C9 (amended) on the concrete 3-item table of length 2. -/
theorem slice_centers_evenly_spaced_decreasing_witness :
    ((getSlicePositions 3 2 1).get ⟨1, by norm_num [getSlicePositions]⟩).2.rel_center_mm <
      ((getSlicePositions 3 2 1).get ⟨0, by norm_num [getSlicePositions]⟩).2.rel_center_mm ∧
    ((getSlicePositions 3 2 1).get ⟨0, by norm_num [getSlicePositions]⟩).2.rel_center_mm -
      ((getSlicePositions 3 2 1).get ⟨1, by norm_num [getSlicePositions]⟩).2.rel_center_mm =
      2 / (((3 : ℕ) : ℚ) - 1) :=
  slice_centers_evenly_spaced_decreasing 3 2 1 0 (by norm_num) (by norm_num)
    (by norm_num [getSlicePositions]) (by norm_num [getSlicePositions])
